import Mathlib

/-!
# cuszap: the zap-backed logging facade

A shallow embedding of `src/cuszap/log.go` and `src/cuszap/option.go`, and of the
text formatter of `src/cuslog/formatter_text.go`.

The facade is a thin layer over the zap engine, which is not part of the
repository.  The parts of zap the facade relies on are embedded under `zap`,
from zap's documented behaviour: level gating, the terminal behaviour of the
`DPanic`, `Panic` and `Fatal` levels, `With`, `Named`, and the sugared logger's
`Infof` and `Infow`.  Parts of the engine that depend on the
zap release or on the environment (level text parsing, encoder registry and
sinks) are parameters collected in `zap.Engine`.  Formatted messages are kept
symbolic.

A Go call is embedded as a `Run`: the entries it wrote to the engine, in
order, together with how it ended (returned, panicked, or exited the process).
The sampler that `New` configures can only drop entries that passed the level
gate; the embedding records every entry that passed the gate.
-/

namespace Cuszap

/-! ## Values and fields -/

/-- A Go `interface{}` value, as far as the facade distinguishes them: strings,
other plain values, and a strongly typed `zap.Field` passed as a value. -/
inductive Value where
  | str (s : String)
  | int (n : Int)
  | bool (b : Bool)
  | null
  | zapField (key : String) (val : Value)
  deriving DecidableEq, Repr

/-- The `zap.Field` (alias `Field`) struct: a key with its value. -/
structure Field where
  Key : String
  Interface : Value
  deriving DecidableEq, Repr

/-- The type assertion `v.(zap.Field)`: succeeds exactly on a typed field. -/
def Value.asField : Value → Option Field
  | .zapField k v => some ⟨k, v⟩
  | _ => none

/-- The type assertion `v.(string)`. -/
def Value.asString : Value → Option String
  | .str s => some s
  | _ => none

/-! ## Runs: written entries and the way a call ends -/

/-- A message string.  The results of `fmt.Sprintf` and `fmt.Sprint` are kept
symbolic: the format and the arguments they were called with. -/
inductive Message where
  | text (s : String)
  | sprintf (format : String) (args : List Value)
  | sprint (args : List Value)
  deriving DecidableEq, Repr

/-- A log entry handed to the engine core: level, logger name, message, the
fields accumulated on the logger, and the fields of the call. -/
structure Entry where
  Level : Int
  LoggerName : String
  Message : Message
  Context : List Field
  Fields : List Field
  deriving DecidableEq, Repr

/-- How a Go call ends. -/
inductive Outcome (α : Type) where
  | returned (a : α)
  | panicked (msg : Message)
  | exited (code : Int)
  deriving DecidableEq, Repr

/-- The effect of a Go call: the entries written, then the outcome. -/
structure Run (α : Type) where
  written : List Entry
  outcome : Outcome α
  deriving DecidableEq, Repr

/-- A call that writes nothing and returns `a`. -/
def Run.ret {α : Type} (a : α) : Run α := ⟨[], .returned a⟩

/-- Sequencing: the continuation runs only when the first call returned. -/
def Run.andThen {α β : Type} (r : Run α) (k : α → Run β) : Run β :=
  match r.outcome with
  | .returned a => ⟨r.written ++ (k a).written, (k a).outcome⟩
  | .panicked m => ⟨r.written, .panicked m⟩
  | .exited c => ⟨r.written, .exited c⟩

/-- Whether the call returned normally to its caller. -/
def Run.returns {α : Type} (r : Run α) : Bool :=
  match r.outcome with
  | .returned _ => true
  | _ => false

/-- The value the call returned, when it returned. -/
def Run.value? {α : Type} (r : Run α) : Option α :=
  match r.outcome with
  | .returned a => some a
  | _ => none

end Cuszap

namespace strings

/-- The function `strings.ToLower` on the letters `A` to `Z`; other characters are
kept.  No character outside that range is lowered by Go to a letter of
`console` or `json`. -/
def ToLower (s : String) : String := String.mk (s.data.map Char.toLower)

end strings

/-! ## The zap engine, as far as the facade uses it -/

namespace zap

open Cuszap

/-- The constant `zapcore.DebugLevel`. -/
def DebugLevel : Int := -1
/-- The constant `zapcore.InfoLevel`. -/
def InfoLevel : Int := 0
/-- The constant `zapcore.WarnLevel`. -/
def WarnLevel : Int := 1
/-- The constant `zapcore.ErrorLevel`. -/
def ErrorLevel : Int := 2
/-- The constant `zapcore.DPanicLevel`. -/
def DPanicLevel : Int := 3
/-- The constant `zapcore.PanicLevel`. -/
def PanicLevel : Int := 4
/-- The constant `zapcore.FatalLevel`. -/
def FatalLevel : Int := 5

/-- Conversion of a Go `int` (64 bit) to `zapcore.Level`, an `int8`: the low
eight bits, read as a signed number. -/
def toInt8 (x : Int) : Int := (x + 128) % 256 - 128

/-- Go `int` arithmetic wraps at 64 bits. -/
def wrapInt64 (x : Int) : Int := (x + 2 ^ 63) % 2 ^ 64 - 2 ^ 63

/-- The function `zap.Any(key, value)`: a field carrying the value under the key. -/
def Any (key : String) (value : Value) : Field := ⟨key, value⟩

/-- A `*zap.Logger`: the minimum level of its core, the development flag, its
name and the fields accumulated with `With`. -/
structure Logger where
  level : Int
  development : Bool
  name : String
  context : List Field
  deriving DecidableEq, Repr

/-- The method `Core().Enabled(lvl)`: the level is at or above the minimum. -/
def Logger.Enabled (l : Logger) (lvl : Int) : Bool := decide (l.level ≤ lvl)

/-- The `zapcore.CheckWriteAction` taken after an entry is written. -/
inductive CheckWriteAction where
  | WriteThenNoop
  | WriteThenPanic
  | WriteThenFatal
  deriving DecidableEq, Repr

/-- A non-nil `*zapcore.CheckedEntry`: the entry, whether a core accepted it,
and the terminal action. -/
structure CheckedEntry where
  Level : Int
  LoggerName : String
  Message : Message
  Context : List Field
  willWrite : Bool
  should : CheckWriteAction
  deriving DecidableEq, Repr

/-- The terminal action zap attaches to a level: `Panic` panics, `Fatal` exits,
`DPanic` panics in development mode only. -/
def Logger.terminal (l : Logger) (lvl : Int) : CheckWriteAction :=
  if lvl = PanicLevel then .WriteThenPanic
  else if lvl = FatalLevel then .WriteThenFatal
  else if lvl = DPanicLevel ∧ l.development = true then .WriteThenPanic
  else .WriteThenNoop

/-- The method `Logger.Check(lvl, msg)`: `none` (nil) when the level is disabled
and carries no terminal action. -/
def Logger.Check (l : Logger) (lvl : Int) (msg : Message) : Option CheckedEntry :=
  if lvl < DPanicLevel ∧ l.Enabled lvl = false then none
  else if l.Enabled lvl = false ∧ l.terminal lvl = .WriteThenNoop then none
  else some ⟨lvl, l.name, msg, l.context, l.Enabled lvl, l.terminal lvl⟩

/-- The method `CheckedEntry.Write(fields...)`: writes the entry to the core that
accepted it, then performs the terminal action. -/
def CheckedEntry.Write (ce : CheckedEntry) (fields : List Field) : Run Unit :=
  let written :=
    if ce.willWrite then [Entry.mk ce.Level ce.LoggerName ce.Message ce.Context fields] else []
  match ce.should with
  | .WriteThenNoop => ⟨written, .returned ()⟩
  | .WriteThenPanic => ⟨written, .panicked ce.Message⟩
  | .WriteThenFatal => ⟨written, .exited 1⟩

/-- Logging at a level through `Check` and `Write`, as `Logger.Info`,
`Logger.DPanic` and the other level methods of zap do. -/
def Logger.logAt (l : Logger) (lvl : Int) (msg : Message) (fields : List Field) : Run Unit :=
  match l.Check lvl msg with
  | some ce => ce.Write fields
  | none => Run.ret ()

/-- The method `Logger.DPanic(msg, fields...)`. -/
def Logger.DPanic (l : Logger) (msg : String) (fields : List Field) : Run Unit :=
  l.logAt DPanicLevel (.text msg) fields

/-- The method `Logger.Info(msg, fields...)`. -/
def Logger.Info (l : Logger) (msg : String) (fields : List Field) : Run Unit :=
  l.logAt InfoLevel (.text msg) fields

/-- The method `Logger.With(fields...)`: a copy whose accumulated fields are
extended; the receiver itself when no field is given. -/
def Logger.With (l : Logger) (fields : List Field) : Logger :=
  if fields = [] then l else { l with context := l.context ++ fields }

/-- The method `Logger.Named(s)`: a copy whose name has the segment appended,
joined by a period; the receiver itself for the empty segment. -/
def Logger.Named (l : Logger) (s : String) : Logger :=
  if s = "" then l
  else if l.name = "" then { l with name := s }
  else { l with name := l.name ++ "." ++ s }

/-- The level encoders `New` and `Build` choose between. -/
inductive LevelEncoder where
  | CapitalLevelEncoder
  | CapitalColorLevelEncoder
  deriving DecidableEq, Repr

/-- The fields of `zap.Config` that `New` and `Build` set from the options.  The
sampling configuration and the encoder keys are constants in the source. -/
structure Config where
  Level : Int
  Development : Bool
  DisableCaller : Bool
  DisableStacktrace : Bool
  Encoding : String
  EncodeLevel : LevelEncoder
  OutputPaths : List String
  ErrorOutputPaths : List String
  deriving DecidableEq, Repr

/-- What the facade takes from its environment: `zapcore.Level.UnmarshalText`
(`none` stands for its error) and the error, if any, with which
`zap.Config.Build` fails (unknown encoder name, a sink that cannot be opened). -/
structure Engine where
  UnmarshalText : String → Option Int
  buildError : Config → Option String

/-- The method `Config.Build(opts...)`: the error of the environment, or else a
logger at the configured level, in development mode when so configured,
unnamed and without fields. -/
def Config.Build (E : Engine) (cfg : Config) : Except String Logger :=
  match E.buildError cfg with
  | some err => .error err
  | none => .ok ⟨cfg.Level, cfg.Development, "", []⟩

/-- The level names of zapcore, as `Level.UnmarshalText` reads them. -/
def levelOfName (text : String) : Option Int :=
  if text = "debug" ∨ text = "DEBUG" then some DebugLevel
  else if text = "info" ∨ text = "INFO" ∨ text = "" then some InfoLevel
  else if text = "warn" ∨ text = "WARN" then some WarnLevel
  else if text = "error" ∨ text = "ERROR" then some ErrorLevel
  else if text = "dpanic" ∨ text = "DPANIC" then some DPanicLevel
  else if text = "panic" ∨ text = "PANIC" then some PanicLevel
  else if text = "fatal" ∨ text = "FATAL" then some FatalLevel
  else none

/-- A reference environment: zapcore level names, read as they are or, failing
that, lowered; the two encoders zap registers itself; sinks that always open. -/
def stock : Engine where
  UnmarshalText := fun text =>
    match levelOfName text with
    | some lvl => some lvl
    | none => levelOfName (strings.ToLower text)
  buildError := fun cfg =>
    if cfg.Encoding = "console" ∨ cfg.Encoding = "json" then none
    else some "no encoder registered"

/-- A `*zap.SugaredLogger`, wrapping its base logger. -/
structure SugaredLogger where
  base : Logger
  deriving DecidableEq, Repr

/-- The method `Logger.Sugar()`. -/
def Logger.Sugar (l : Logger) : SugaredLogger := ⟨l⟩

/-- The message of a sugared call, zap's `getMessage(template, fmtArgs)`. -/
def getMessage (template : String) (fmtArgs : List Value) : Message :=
  if fmtArgs.length = 0 then .text template
  else if template ≠ "" then .sprintf template fmtArgs
  else
    match fmtArgs with
    | [.str s] => .text s
    | _ => .sprint fmtArgs

/-- The fields `SugaredLogger.sweetenFields` makes of loose arguments that need no
diagnostic: a typed field is taken as it is, a string key and its value are
paired with `Any`.  The result is `none` for a dangling or non-string key,
where zap logs a diagnostic of its own. -/
def sweetenFields : List Value → Option (List Field)
  | [] => some []
  | .zapField k v :: rest => (sweetenFields rest).map fun fs => ⟨k, v⟩ :: fs
  | .str k :: val :: rest => (sweetenFields rest).map fun fs => Any k val :: fs
  | _ => none

/-- The method `SugaredLogger.Infof(template, args...)`: the message is formatted
and the entry carries no fields. -/
def SugaredLogger.Infof (s : SugaredLogger) (template : String) (args : List Value) :
    Run Unit :=
  if s.base.Enabled InfoLevel = false then Run.ret ()
  else s.base.logAt InfoLevel (getMessage template args) []

/-- The method `SugaredLogger.Infow(msg, keysAndValues...)`, for arguments that
need no diagnostic (`none` otherwise): the message is `msg` and the fields are
those of the arguments. -/
def SugaredLogger.Infow (s : SugaredLogger) (msg : String) (keysAndValues : List Value) :
    Option (Run Unit) :=
  if s.base.Enabled InfoLevel = false then some (Run.ret ())
  else (sweetenFields keysAndValues).map fun fs => s.base.logAt InfoLevel (getMessage msg []) fs

/-- A `*log.Logger` of the standard library made by `NewStdLogAt`: it writes its
lines to the zap logger at the level. -/
structure StdLogger where
  logger : Logger
  level : Int
  deriving DecidableEq, Repr

/-- The function `zap.NewStdLogAt(l, level)`, with its two results: the standard
library logger and a nil error for the levels `Debug` to `Fatal`, and nil with
an error for any other level. -/
def NewStdLogAt (l : Logger) (level : Int) : Option StdLogger × Option String :=
  if DebugLevel ≤ level ∧ level ≤ FatalLevel then (some ⟨l, level⟩, none)
  else (none, some "unrecognized level")

end zap

/-! ## The text formatter of `cuslog` -/

namespace cuslog

open Cuszap

/-- The constant `FmtEmptySeparate`. -/
def FmtEmptySeparate : String := ""

/-- The map `LevelNameMapping`, on the `uint8` levels; a level that is not a key
reads as the empty string. -/
def LevelNameMapping (level : Nat) : String :=
  if level = 0 then "DEBUG"
  else if level = 1 then "INFO"
  else if level = 2 then "WARN"
  else if level = 3 then "ERROR"
  else if level = 4 then "PANIC"
  else if level = 5 then "FATAL"
  else ""

/-- What one call of `Buffer.WriteString` appends.  The results of the `fmt`
functions are kept symbolic: `header` is `Sprintf("%s %s->", time, levelName)`
with the time in RFC 3339 form, `location` is `Sprintf("%s:%d", short, line)`,
`sprint` and `sprintf` format the arguments of the entry. -/
inductive Piece where
  | header (time : Int) (levelName : String)
  | location (short : String) (line : Int)
  | text (s : String)
  | sprint (args : List Value)
  | sprintf (format : String) (args : List Value)
  deriving DecidableEq, Repr

/-- Modelled from the spec: the struct `Entry` of `cuslog` is not among the
sources.  It is the record of the specification (time, level, file and line of
the call site, format string and arguments) with the buffer the formatter
writes to, which holds the pieces written so far. -/
structure Entry where
  Buffer : List Piece
  Time : Int
  Level : Nat
  File : String
  Line : Int
  Format : String
  Args : List Value
  deriving DecidableEq, Repr

/-- The struct `TextFormatter`. -/
structure TextFormatter where
  IgnoreBasicFields : Bool
  deriving DecidableEq, Repr

/-- The search of `strings.LastIndex` among the start positions below `n`, from
the highest down. -/
def lastIndexBelow (s substr : List Char) : Nat → Int
  | 0 => -1
  | i + 1 =>
    if (s.drop i).take substr.length = substr then (i : Int) else lastIndexBelow s substr i

/-- The function `strings.LastIndex(s, substr)`: the index of the last instance of
`substr` in `s`, or `-1`.  Strings are read as sequences of characters; the
separator `/` is one byte long and is no part of a longer character, so the
cut of the source, by bytes, falls at the same place. -/
def LastIndex (s substr : String) : Int :=
  if substr.length ≤ s.length then
    lastIndexBelow s.data substr.data (s.length - substr.length + 1)
  else -1

/-- The slice expression `s[lo:]`; `none` is the run-time panic for a bound out of
range. -/
def sliceFrom (s : String) (lo : Int) : Option String :=
  if 0 ≤ lo ∧ lo ≤ (s.length : Int) then some (String.mk (s.data.drop lo.toNat)) else none

/-- The result of `Format`: the buffer of the entry after the call, and the
error returned (`none` is nil). -/
structure Formatted where
  Buffer : List Piece
  err : Option String
  deriving DecidableEq, Repr

/-- The pieces `Format` writes for the basic fields; `none` when the slice
panics. -/
def TextFormatter.basicFields (e : Entry) : Option (List Piece) :=
  let head := [Piece.header e.Time (LevelNameMapping e.Level)]
  if e.File ≠ "" then
    match sliceFrom e.File (LastIndex e.File "/" + 1) with
    | none => none
    | some short => some (head ++ [Piece.location short e.Line] ++ [Piece.text " "])
  else some (head ++ [Piece.text " "])

/-- The piece `Format` writes for the message. -/
def TextFormatter.message (e : Entry) : Piece :=
  if e.Format = FmtEmptySeparate then Piece.sprint e.Args
  else Piece.sprintf e.Format e.Args

/-- The method `(*TextFormatter).Format(e)`; `none` when it panics. -/
def TextFormatter.Format (t : TextFormatter) (e : Entry) : Option Formatted :=
  let basic := if t.IgnoreBasicFields = false then TextFormatter.basicFields e else some []
  match basic with
  | none => none
  | some pieces =>
    some ⟨e.Buffer ++ pieces ++ [TextFormatter.message e] ++ [Piece.text "\n"], none⟩

end cuslog

namespace Cuszap

/-! ## The loose-field converter of `log.go` -/

/-- The loop of `handleFeilds`: the arguments that remain from the loop index `i`
on, and the fields converted so far.  Each `break` leaves the loop with the
fields converted so far; the result is the value of `fields` at loop exit. -/
def handleFeildsLoop (l : zap.Logger) : List Value → List Field → Run (List Field)
  | [], fields => Run.ret fields
  | a :: rest, fields =>
    match a.asField with
    | some _ =>
      (l.DPanic "strongly-typed zap filed passed to log" [zap.Any "zap field" a]).andThen
        fun _ => Run.ret fields
    | none =>
      match rest with
      | [] =>
        (l.DPanic "odd number of arguments passed as key-value pairs for logging"
          [zap.Any "ignored key" a]).andThen fun _ => Run.ret fields
      | val :: rest2 =>
        match a.asString with
        | none =>
          (l.DPanic "non-string key argument passed to logging,, ignoring all later arguments"
            [zap.Any "invalid key" a]).andThen fun _ => Run.ret fields
        | some keystr => handleFeildsLoop l rest2 (fields ++ [zap.Any keystr val])

/-- The function `handleFeilds(l, args, additioanal...)`. -/
def handleFeilds (l : zap.Logger) (args : List Value) (additioanal : List Field) :
    Run (List Field) :=
  if args.length = 0 then Run.ret additioanal
  else (handleFeildsLoop l args []).andThen fun fields => Run.ret (fields ++ additioanal)

/-! ## Loggers of `log.go` -/

/-- The struct `infoLogger`: logs through `log` at the fixed level `level`. -/
structure infoLogger where
  level : Int
  log : zap.Logger
  deriving DecidableEq, Repr

set_option linter.dupNamespace false in
/-- The struct `zapLogger`: the zap logger with the embedded `infoLogger`. -/
structure zapLogger where
  zapLogger : zap.Logger
  infoLogger : infoLogger
  deriving DecidableEq, Repr

/-- The values of the interface `InfoLogger` that `V` returns: the shared
`disabledInfoLogger` (a `noopInfoLogger`) or a fresh `infoLogger`. -/
inductive InfoLogger where
  | disabledInfoLogger
  | leveled (l : infoLogger)
  deriving DecidableEq, Repr

/-- The method `(*infoLogger).Enabled`. -/
def infoLogger.Enabled (_l : infoLogger) : Bool := true

/-- The method `(*infoLogger).Info`. -/
def infoLogger.Info (l : infoLogger) (msg : String) (fields : List Field) : Run Unit :=
  match l.log.Check l.level (.text msg) with
  | some checkedEntry => checkedEntry.Write fields
  | none => Run.ret ()

/-- The method `(*infoLogger).Infof`. -/
def infoLogger.Infof (l : infoLogger) (format : String) (args : List Value) : Run Unit :=
  match l.log.Check l.level (.sprintf format args) with
  | some checkEntry => checkEntry.Write []
  | none => Run.ret ()

/-- The method `(*infoLogger).Infow`; the line it prints to standard output is
not a log entry and is left out. -/
def infoLogger.Infow (l : infoLogger) (msg : String) (keyAndValues : List Value) : Run Unit :=
  match l.log.Check l.level (.text msg) with
  | some checkEntry =>
    (handleFeilds l.log keyAndValues []).andThen fun fields => checkEntry.Write fields
  | none => Run.ret ()

/-- The method `Enabled` of the interface value. -/
def InfoLogger.Enabled : InfoLogger → Bool
  | .disabledInfoLogger => false
  | .leveled l => l.Enabled

/-- The method `Info` of the interface value. -/
def InfoLogger.Info : InfoLogger → String → List Field → Run Unit
  | .disabledInfoLogger, _, _ => Run.ret ()
  | .leveled l, msg, fields => l.Info msg fields

/-- The method `Infof` of the interface value. -/
def InfoLogger.Infof : InfoLogger → String → List Value → Run Unit
  | .disabledInfoLogger, _, _ => Run.ret ()
  | .leveled l, format, args => l.Infof format args

/-- The method `Infow` of the interface value. -/
def InfoLogger.Infow : InfoLogger → String → List Value → Run Unit
  | .disabledInfoLogger, _, _ => Run.ret ()
  | .leveled l, msg, keyAndValues => l.Infow msg keyAndValues

/-- The function `NewLogger(z)`. -/
def NewLogger (z : zap.Logger) : zapLogger :=
  { zapLogger := z, infoLogger := { log := z, level := zap.InfoLevel } }

/-- The method `(*zapLogger).V(level)`; `level` is a Go `int`. -/
def zapLogger.V (l : Cuszap.zapLogger) (level : Int) : InfoLogger :=
  let lvl := zap.toInt8 (zap.wrapInt64 (-1 * level))
  if l.zapLogger.Enabled lvl then .leveled { level := lvl, log := l.zapLogger }
  else .disabledInfoLogger

/-- The method `(*zapLogger).WithValues(keyAndValues...)`. -/
def zapLogger.WithValues (l : Cuszap.zapLogger) (keyAndValues : List Value) :
    Run Cuszap.zapLogger :=
  (handleFeilds l.zapLogger keyAndValues []).andThen fun fields =>
    let newLogger := l.zapLogger.With fields
    Run.ret (NewLogger newLogger)

/-- The method `(*zapLogger).WithName(s)`. -/
def zapLogger.WithName (l : Cuszap.zapLogger) (s : String) : Cuszap.zapLogger :=
  let newLogger := l.zapLogger.Named s
  NewLogger newLogger

/-- The method `(*zapLogger).Infow(msg, keyAndValue...)`. -/
def zapLogger.Infow (l : Cuszap.zapLogger) (msg : String) (keyAndValue : List Value) : Run Unit :=
  l.zapLogger.Sugar.Infof msg keyAndValue

/-- The package function `Infow(msg, keyAndValue...)`, on the default logger
`std`; `none` where the sugared logger of zap logs a diagnostic of its own. -/
def Infow (std : zapLogger) (msg : String) (keyAndValue : List Value) : Option (Run Unit) :=
  std.zapLogger.Sugar.Infow msg keyAndValue

/-- The package function `V(level)`, on the default logger `std`. -/
def V (std : zapLogger) (level : Int) : InfoLogger := std.V level

/-- The package function `WithValues(keyAndValues...)`, on the default logger `std`. -/
def WithValues (std : zapLogger) (keyAndValues : List Value) : Run zapLogger :=
  std.WithValues keyAndValues

/-! ## Options of `option.go`, and construction -/

/-- The constant `consoleFormat`. -/
def consoleFormat : String := "console"
/-- The constant `jsonFormat`. -/
def jsonFormat : String := "json"

/-- The struct `Options`. -/
structure Options where
  OutputPaths : List String
  ErrorOutputPaths : List String
  Level : String
  Format : String
  DisableCaller : Bool
  DisableStacktrace : Bool
  EnableColor : Bool
  Development : Bool
  Name : String
  deriving DecidableEq, Repr

/-- The function `NewOptions()`; `zapcore.InfoLevel.String()` is `"info"`. -/
def NewOptions : Options where
  Level := "info"
  DisableCaller := false
  DisableStacktrace := false
  Format := consoleFormat
  EnableColor := false
  Development := false
  OutputPaths := ["stdout"]
  ErrorOutputPaths := ["stdout"]
  Name := ""

/-- The errors `Validate` collects: the error of `UnmarshalText` on the level
text, and the error made for the format. -/
inductive ValidateError where
  | unrecognizedLevel (text : String)
  | notValidFormat (format : String)
  deriving DecidableEq, Repr

/-- The method `(*Options).Validate()`. -/
def Options.Validate (E : zap.Engine) (o : Options) : List ValidateError :=
  let errs : List ValidateError := []
  let errs :=
    match E.UnmarshalText o.Level with
    | none => errs ++ [.unrecognizedLevel o.Level]
    | some _ => errs
  let format := strings.ToLower o.Format
  let errs :=
    if format ≠ consoleFormat ∧ format ≠ jsonFormat then errs ++ [.notValidFormat o.Format]
    else errs
  errs

/-- The level `New` and `Build` hand to the engine: the parsed level text, or
`InfoLevel` when parsing fails. -/
def Options.zapLevel (E : zap.Engine) (o : Options) : Int :=
  match E.UnmarshalText o.Level with
  | none => zap.InfoLevel
  | some lvl => lvl

/-- The level encoder `New` and `Build` choose. -/
def Options.encodeLevel (o : Options) : zap.LevelEncoder :=
  if o.Format = consoleFormat ∧ o.EnableColor = true then .CapitalColorLevelEncoder
  else .CapitalLevelEncoder

/-- The `zap.Config` that `New` (as `loggerCofig`) and `Build` (as `zp`) fill in
from the options; the two literals are the same. -/
def loggerCofig (E : zap.Engine) (opts : Options) : zap.Config where
  Level := opts.zapLevel E
  Development := opts.Development
  DisableCaller := opts.DisableCaller
  DisableStacktrace := opts.DisableStacktrace
  Encoding := opts.Format
  EncodeLevel := opts.encodeLevel
  OutputPaths := opts.OutputPaths
  ErrorOutputPaths := opts.ErrorOutputPaths

/-- The function `New(opts)`; `none` is the nil pointer.  It panics with the
error of the engine when the logger cannot be built.  The redirection of the
standard library logger is left out. -/
def New (E : zap.Engine) (opts : Option Options) : Run zapLogger :=
  let opts := match opts with
    | none => NewOptions
    | some o => o
  match (loggerCofig E opts).Build E with
  | .error err => ⟨[], .panicked (.text err)⟩
  | .ok l =>
    Run.ret { zapLogger := l.Named opts.Name, infoLogger := { level := zap.InfoLevel, log := l } }

/-- The method `(*Options).Build()`: the error of the engine, or else the logger
it installs as the global zap logger. -/
def Options.Build (E : zap.Engine) (o : Options) : Except String zap.Logger :=
  match (loggerCofig E o).Build E with
  | .error err => .error err
  | .ok logger => .ok logger

/-! ## The loose-field contract, by argument position -/

/-- Key position `i` of `args` is malformed: the argument there is a typed zap
field, or `i` is the last index of `args`, or the argument is not a string. -/
def malformedKey (args : List Value) (i : Nat) : Bool :=
  match args[i]? with
  | none => false
  | some a => a.asField.isSome || decide (i + 1 = args.length) || a.asString.isNone

/-- The field `Any(args[i], args[i+1])` of the pair at key position `i`. -/
def pairAt (args : List Value) (i : Nat) : Field :=
  zap.Any ((args[i]?.bind Value.asString).getD "") (args[i + 1]?.getD .null)

/-- The fields of the pairs at key positions `i`, `i + 2`, ... of `args`, up to the
first malformed key position or the end of `args`; `fuel` bounds the number of
pairs. -/
def pairsFrom (args : List Value) : Nat → Nat → List Field
  | 0, _ => []
  | fuel + 1, i =>
    if i < args.length ∧ malformedKey args i = false then
      pairAt args i :: pairsFrom args fuel (i + 2)
    else []

/-- The fields of the pairs that precede the first malformed key position, as the
contract words it: by key position, not by the loop of the source. -/
def leadingPairs (args : List Value) : List Field := pairsFrom args args.length 0

/-- A loose argument list is well formed when no key position is malformed. -/
def wellFormed (args : List Value) : Prop :=
  ∀ i, i < args.length → i % 2 = 0 → malformedKey args i = false

instance (args : List Value) : Decidable (wellFormed args) := by
  unfold wellFormed; infer_instance

/-- The fields of the leading string-keyed pairs, by recursion on the list. -/
def scanFields : List Value → List Field
  | [] => []
  | [_] => []
  | a :: val :: rest =>
    match a.asString with
    | some keystr => zap.Any keystr val :: scanFields rest
    | none => []

/-- The keys of the marker fields that the diagnostics of `handleFeilds` carry. -/
def diagnosticKeys : List String := ["zap field", "ignored key", "invalid key"]

/-- Whether a field is one of the diagnostic markers. -/
def isDiagnosticMarker (f : Field) : Bool := decide (f.Key ∈ diagnosticKeys)

/-- The function `StdErrLogger()`, on the default logger `std` (`none` is nil). -/
def StdErrLogger (std : Option zapLogger) : Option zap.StdLogger :=
  match std with
  | none => none
  | some std =>
    let (l, err) := zap.NewStdLogAt std.zapLogger zap.ErrorLevel
    if err ≠ none then l else none

/-- The function `StdInfoLogger()`, on the default logger `std` (`none` is nil). -/
def StdInfoLogger (std : Option zapLogger) : Option zap.StdLogger :=
  match std with
  | none => none
  | some std =>
    let (l, err) := zap.NewStdLogAt std.zapLogger zap.InfoLevel
    if err ≠ none then l else none

/-! ## Lemmas on runs and on the diagnostic self-log -/

theorem andThen_ret {α β : Type} (a : α) (k : α → Run β) : (Run.ret a).andThen k = k a := by
  simp [Run.ret, Run.andThen]

/-- Outside development mode `DPanic` returns. -/
theorem DPanic_outcome_of_not_development (l : zap.Logger) (msg : String) (fs : List Field)
    (h : l.development = false) : (l.DPanic msg fs).outcome = .returned () := by
  unfold zap.Logger.DPanic zap.Logger.logAt zap.Logger.Check
  simp only [zap.Logger.terminal, h, zap.DPanicLevel, zap.PanicLevel, zap.FatalLevel]
  by_cases he : l.Enabled 3 = false
  · simp [he, Run.ret]
  · simp [he, zap.CheckedEntry.Write]

/-- In development mode `DPanic` panics. -/
theorem DPanic_outcome_of_development (l : zap.Logger) (msg : String) (fs : List Field)
    (h : l.development = true) : (l.DPanic msg fs).outcome = .panicked (.text msg) := by
  unfold zap.Logger.DPanic zap.Logger.logAt zap.Logger.Check
  simp only [zap.Logger.terminal, h, zap.DPanicLevel, zap.PanicLevel, zap.FatalLevel]
  by_cases he : l.Enabled 3 = false
  · simp [he, zap.CheckedEntry.Write]
  · simp [he, zap.CheckedEntry.Write]

theorem andThen_outcome_of_returned {α β : Type} (r : Run α) (a : α) (b : β)
    (h : r.outcome = .returned a) : (r.andThen fun _ => Run.ret b).outcome = .returned b := by
  simp [Run.andThen, h, Run.ret]

/-- Outside development mode the loop returns the fields so far followed by the
fields of the leading string-keyed pairs. -/
theorem handleFeildsLoop_outcome (l : zap.Logger) (h : l.development = false) :
    ∀ (args : List Value) (fields : List Field),
      (handleFeildsLoop l args fields).outcome = .returned (fields ++ scanFields args) := by
  intro args
  induction args using scanFields.induct with
  | case1 => intro fields; simp [handleFeildsLoop, scanFields, Run.ret]
  | case2 a =>
    intro fields
    cases a <;>
      simp [handleFeildsLoop, scanFields, Value.asField,
        andThen_outcome_of_returned _ _ _ (DPanic_outcome_of_not_development l _ _ h)]
  | case3 a val rest keystr hk ih =>
    intro fields
    cases a <;> simp [Value.asString] at hk
    subst hk
    simp [handleFeildsLoop, scanFields, Value.asField, Value.asString, ih]
  | case4 a val rest hk =>
    intro fields
    cases a <;> simp [Value.asString] at hk <;>
      simp [handleFeildsLoop, scanFields, Value.asField, Value.asString,
        andThen_outcome_of_returned _ _ _ (DPanic_outcome_of_not_development l _ _ h)]

/-! ## The position contract against the recursion on the list -/

theorem malformedKey_shift (a val : Value) (rest : List Value) (i : Nat) :
    malformedKey (a :: val :: rest) (i + 2) = malformedKey rest i := by
  simp [malformedKey]

theorem pairAt_shift (a val : Value) (rest : List Value) (i : Nat) :
    pairAt (a :: val :: rest) (i + 2) = pairAt rest i := by
  simp [pairAt]

theorem pairsFrom_shift (a val : Value) (rest : List Value) :
    ∀ (fuel i : Nat), pairsFrom (a :: val :: rest) fuel (i + 2) = pairsFrom rest fuel i := by
  intro fuel
  induction fuel with
  | zero => intro i; simp [pairsFrom]
  | succ n ih =>
    intro i
    simp only [pairsFrom, malformedKey_shift, pairAt_shift, ih, List.length_cons]
    simp

theorem malformedKey_zero_cons_cons (a val : Value) (rest : List Value) :
    malformedKey (a :: val :: rest) 0 = (a.asField.isSome || a.asString.isNone) := by
  simp [malformedKey]

theorem pairsFrom_eq_scanFields :
    ∀ (fuel : Nat) (args : List Value), args.length ≤ fuel →
      pairsFrom args fuel 0 = scanFields args := by
  intro fuel
  induction fuel with
  | zero =>
    intro args h
    have : args = [] := List.length_eq_zero.mp (Nat.le_zero.mp h)
    subst this
    simp [pairsFrom, scanFields]
  | succ n ih =>
    intro args h
    match args, h with
    | [], _ => simp [pairsFrom, scanFields]
    | [a], _ => simp [pairsFrom, scanFields, malformedKey]
    | a :: val :: rest, h =>
      have hlen : rest.length ≤ n := by simp at h; omega
      cases a <;>
        simp [pairsFrom, scanFields, malformedKey_zero_cons_cons, Value.asField, Value.asString,
          pairsFrom_shift, ih rest hlen, pairAt, zap.Any]

theorem leadingPairs_eq_scanFields (args : List Value) : leadingPairs args = scanFields args :=
  pairsFrom_eq_scanFields args.length args (Nat.le_refl _)

theorem not_wellFormed_singleton (a : Value) : ¬ wellFormed [a] := by
  intro h
  have := h 0 (by simp) (by simp)
  simp [malformedKey] at this

theorem wellFormed_cons_cons (a val : Value) (rest : List Value)
    (h : wellFormed (a :: val :: rest)) :
    (∃ keystr, a = .str keystr) ∧ wellFormed rest := by
  constructor
  · have h0 := h 0 (by simp) (by simp)
    rw [malformedKey_zero_cons_cons] at h0
    cases a <;> simp [Value.asField, Value.asString] at h0 ⊢
  · intro i hi hev
    have := h (i + 2) (by simp; omega) (by omega)
    rwa [malformedKey_shift] at this

/-- On a well-formed list the loop logs nothing and returns every pair. -/
theorem handleFeildsLoop_of_wellFormed (l : zap.Logger) :
    ∀ (args : List Value) (fields : List Field), wellFormed args →
      handleFeildsLoop l args fields = Run.ret (fields ++ scanFields args) ∧
        2 * (scanFields args).length = args.length := by
  intro args
  induction args using scanFields.induct with
  | case1 => intro fields _; simp [handleFeildsLoop, scanFields]
  | case2 a => intro fields h; exact absurd h (not_wellFormed_singleton a)
  | case3 a val rest keystr hk ih =>
    intro fields h
    obtain ⟨⟨k, rfl⟩, hrest⟩ := wellFormed_cons_cons a val rest h
    have := ih (fields ++ [zap.Any k val]) hrest
    simp [handleFeildsLoop, scanFields, Value.asField, Value.asString, this.1]
    omega
  | case4 a val rest hk =>
    intro fields h
    obtain ⟨⟨k, rfl⟩, _⟩ := wellFormed_cons_cons a val rest h
    simp [Value.asString] at hk

theorem andThen_assoc {α β γ : Type} (r : Run α) (f : α → Run β) (g : β → Run γ) :
    (r.andThen f).andThen g = r.andThen fun a => (f a).andThen g := by
  cases r with
  | mk w o =>
    cases o with
    | returned a =>
      simp only [Run.andThen]
      cases hfa : (f a).outcome <;> simp [hfa]
    | panicked m => simp [Run.andThen]
    | exited c => simp [Run.andThen]

/-- The entries `DPanic` writes: the diagnostic entry when the level is enabled. -/
theorem DPanic_written (l : zap.Logger) (msg : String) (fs : List Field) :
    (l.DPanic msg fs).written =
      if l.Enabled zap.DPanicLevel = true then
        [Entry.mk zap.DPanicLevel l.name (.text msg) l.context fs]
      else [] := by
  unfold zap.Logger.DPanic zap.Logger.logAt zap.Logger.Check
  simp only [zap.Logger.terminal, zap.DPanicLevel, zap.PanicLevel, zap.FatalLevel]
  by_cases he : l.Enabled 3 = true
  · cases hd : l.development <;> simp [he, zap.CheckedEntry.Write]
  · cases hd : l.development <;> simp [he, zap.CheckedEntry.Write, Run.ret]

/-- Well-formed leading arguments are converted and the loop goes on behind them. -/
theorem handleFeildsLoop_append (l : zap.Logger) (tail : List Value) :
    ∀ (wf : List Value) (fields : List Field), wellFormed wf →
      handleFeildsLoop l (wf ++ tail) fields =
        handleFeildsLoop l tail (fields ++ scanFields wf) := by
  intro wf
  induction wf using scanFields.induct with
  | case1 => intro fields _; simp [scanFields]
  | case2 a => intro fields h; exact absurd h (not_wellFormed_singleton a)
  | case3 a val rest keystr hk ih =>
    intro fields h
    obtain ⟨⟨k, rfl⟩, hrest⟩ := wellFormed_cons_cons a val rest h
    have := ih (fields ++ [zap.Any k val]) hrest
    simp [handleFeildsLoop, scanFields, Value.asField, Value.asString, this]
  | case4 a val rest hk =>
    intro fields h
    obtain ⟨⟨k, rfl⟩, _⟩ := wellFormed_cons_cons a val rest h
    simp [Value.asString] at hk

/-- A call of `handleFeilds` on arguments that are not empty is the loop followed
by the additional fields. -/
theorem handleFeilds_of_ne_nil (l : zap.Logger) (args : List Value) (additional : List Field)
    (h : args ≠ []) :
    handleFeilds l args additional =
      (handleFeildsLoop l args []).andThen fun fields => Run.ret (fields ++ additional) := by
  have : args.length ≠ 0 := by simpa using h
  simp [handleFeilds, this]

/-- The whole effect of `handleFeilds` on a well-formed list. -/
theorem handleFeilds_of_wellFormed (l : zap.Logger) (args : List Value)
    (additional : List Field) (h : wellFormed args) :
    handleFeilds l args additional = Run.ret (leadingPairs args ++ additional) := by
  rw [leadingPairs_eq_scanFields]
  by_cases hnil : args = []
  · subst hnil; simp [handleFeilds, scanFields]
  · rw [handleFeilds_of_ne_nil l args additional hnil,
      (handleFeildsLoop_of_wellFormed l args [] h).1, andThen_ret]
    simp

/-- Outside development mode `handleFeilds` returns the leading pairs and the
additional fields. -/
theorem handleFeilds_outcome (l : zap.Logger) (args : List Value) (additional : List Field)
    (h : l.development = false) :
    (handleFeilds l args additional).outcome = .returned (leadingPairs args ++ additional) := by
  rw [leadingPairs_eq_scanFields]
  by_cases hnil : args = []
  · subst hnil; simp [handleFeilds, scanFields, Run.ret]
  · rw [handleFeilds_of_ne_nil l args additional hnil]
    have := handleFeildsLoop_outcome l h args []
    simp [Run.andThen, this, Run.ret]

/-- The leading pairs by position: there are `k` of them, at the key positions
`0, 2, ..., 2 * (k - 1)`, none of which is malformed, and key position `2 * k`
is malformed unless the list ends there. -/
theorem leadingPairs_by_position (args : List Value) :
    ∃ k, leadingPairs args = (List.range k).map (fun j => pairAt args (2 * j)) ∧
      (∀ j, j < k → 2 * j + 1 < args.length ∧ malformedKey args (2 * j) = false) ∧
      (2 * k < args.length → malformedKey args (2 * k) = true) := by
  rw [leadingPairs_eq_scanFields]
  induction args using scanFields.induct with
  | case1 => exact ⟨0, by simp [scanFields], by simp, by simp⟩
  | case2 a => exact ⟨0, by simp [scanFields], by simp, by simp [malformedKey]⟩
  | case3 a val rest keystr hk ih =>
    obtain ⟨k, h1, h2, h3⟩ := ih
    refine ⟨k + 1, ?_, ?_, ?_⟩
    · have hshift : ∀ j, pairAt (a :: val :: rest) (2 * (j + 1)) = pairAt rest (2 * j) := by
        intro j
        rw [show 2 * (j + 1) = 2 * j + 2 by ring]
        exact pairAt_shift a val rest (2 * j)
      have h0 : pairAt (a :: val :: rest) 0 = zap.Any keystr val := by
        simp [pairAt, hk]
      simp [scanFields, hk, h1, List.range_succ_eq_map, List.map_map, Function.comp_def,
        hshift, h0]
    · intro j hj
      cases j with
      | zero =>
        refine ⟨by simp, ?_⟩
        rw [malformedKey_zero_cons_cons]
        cases a <;> simp [Value.asString] at hk
        simp [Value.asField, Value.asString]
      | succ i =>
        have := h2 i (by omega)
        rw [show 2 * (i + 1) = 2 * i + 2 by ring, malformedKey_shift]
        refine ⟨by simp; omega, this.2⟩
    · intro hlt
      rw [show 2 * (k + 1) = 2 * k + 2 by ring, malformedKey_shift]
      exact h3 (by simp at hlt; omega)
  | case4 a val rest hk =>
    refine ⟨0, by simp [scanFields, hk], by simp, ?_⟩
    intro _
    rw [malformedKey_zero_cons_cons]
    simp [hk]

/-! ## Claims on the loose-field converter -/

/-- C1, as stated, fails: on a logger in development mode a non-string key makes
`handleFeilds` panic in the diagnostic, so it does not return the fields that
precede the malformed position. -/
theorem handleFeilds_development_nonstring_key_panics :
    (handleFeilds ⟨0, true, "", []⟩ [.int 42, .str "v"] []).outcome ≠
      .returned (leadingPairs [.int 42, .str "v"] ++ []) := by
  decide

/-- C1 (amended): for every zap logger that is not in development mode, and for
every logger when the arguments are well formed, `handleFeilds` returns exactly
the fields `Any(args[i], args[i+1])` of the pairs that precede the first
malformed key position, in order, followed by the additional fields in order:
there are `k` such pairs, at the key positions `0, 2, ..., 2 * (k - 1)`, none of
them malformed, and position `2 * k` is malformed or past the end.  For a
well-formed list of `n` pairs the result has `n + len(additional)` fields and
nothing is logged. -/
theorem handleFeilds_returns_leadingPairs (l : zap.Logger) (args : List Value)
    (additional : List Field) (h : l.development = false ∨ wellFormed args) :
    (handleFeilds l args additional).outcome = .returned (leadingPairs args ++ additional) ∧
      (∃ k, leadingPairs args = (List.range k).map (fun j => pairAt args (2 * j)) ∧
        (∀ j, j < k → 2 * j + 1 < args.length ∧ malformedKey args (2 * j) = false) ∧
        (2 * k < args.length → malformedKey args (2 * k) = true)) ∧
      (wellFormed args →
        (handleFeilds l args additional).written = [] ∧
          ∀ n, args.length = 2 * n →
            (leadingPairs args ++ additional).length = n + additional.length) := by
  refine ⟨?_, leadingPairs_by_position args, ?_⟩
  · rcases h with h | h
    · exact handleFeilds_outcome l args additional h
    · rw [handleFeilds_of_wellFormed l args additional h]; rfl
  · intro hwf
    constructor
    · rw [handleFeilds_of_wellFormed l args additional hwf]; rfl
    · intro n hn
      have := (handleFeildsLoop_of_wellFormed l args [] hwf).2
      rw [leadingPairs_eq_scanFields, List.length_append]
      omega

/-- C1 (amended), at a logger outside development mode and at a list with a
dangling key: the result is the one pair before it and the additional field. -/
theorem handleFeilds_returns_leadingPairs_witness :
    (handleFeilds ⟨0, false, "", []⟩ [.str "k1", .int 1, .str "k2"]
        [Field.mk "err" .null]).outcome =
      .returned (leadingPairs [.str "k1", .int 1, .str "k2"] ++ [Field.mk "err" .null]) :=
  (handleFeilds_returns_leadingPairs ⟨0, false, "", []⟩ [.str "k1", .int 1, .str "k2"]
    [Field.mk "err" .null] (Or.inl rfl)).1

/-- Outside development mode a diagnostic is followed by the rest of the call. -/
theorem DPanic_andThen {α : Type} (l : zap.Logger) (msg : String) (fs : List Field)
    (k : Unit → Run α) (h : l.development = false) :
    (l.DPanic msg fs).andThen k =
      ⟨(l.DPanic msg fs).written ++ (k ()).written, (k ()).outcome⟩ := by
  simp [Run.andThen, DPanic_outcome_of_not_development l msg fs h]

/-- C2, as stated, fails: for `("k1", 1, "k2")` the field list `handleFeilds`
returns holds no diagnostic marker field. -/
theorem handleFeilds_result_has_no_marker :
    ¬ ∃ fields,
      (handleFeilds ⟨0, false, "", []⟩ [.str "k1", .int 1, .str "k2"] []).outcome =
          .returned fields ∧
        fields.any isDiagnosticMarker = true := by
  rintro ⟨fields, h1, h2⟩
  have h : (handleFeilds ⟨0, false, "", []⟩ [.str "k1", .int 1, .str "k2"] []).outcome =
      .returned [Field.mk "k1" (.int 1)] := by decide
  rw [h] at h1
  cases h1
  revert h2
  decide

/-- C2 (amended): outside development mode, for well-formed pairs `wf` followed by
an odd trailing element `x`, or by a key `k` that is not a string together with
its value and anything after it, `handleFeilds` returns the fields of `wf` and
the additional fields, so nothing derived from the offending element or from
what follows it; the diagnostic marker is not in the returned list but is the
one field of the separate diagnostic entry, written at the `DPanic` level when
that level is enabled. -/
theorem handleFeilds_truncates_at_offending (l : zap.Logger) (wf : List Value)
    (x k v : Value) (rest : List Value) (additional : List Field)
    (hdev : l.development = false) (hwf : wellFormed wf)
    (hx : x.asField = none) (hk : k.asField = none ∧ k.asString = none) :
    handleFeilds l (wf ++ [x]) additional =
        ⟨if l.Enabled zap.DPanicLevel = true then
            [Entry.mk zap.DPanicLevel l.name
              (.text "odd number of arguments passed as key-value pairs for logging")
              l.context [zap.Any "ignored key" x]]
          else [],
          .returned (leadingPairs wf ++ additional)⟩ ∧
      handleFeilds l (wf ++ k :: v :: rest) additional =
        ⟨if l.Enabled zap.DPanicLevel = true then
            [Entry.mk zap.DPanicLevel l.name
              (.text "non-string key argument passed to logging,, ignoring all later arguments")
              l.context [zap.Any "invalid key" k]]
          else [],
          .returned (leadingPairs wf ++ additional)⟩ := by
  constructor
  · rw [handleFeilds_of_ne_nil l _ additional (by simp), handleFeildsLoop_append l [x] wf [] hwf,
      leadingPairs_eq_scanFields]
    simp only [handleFeildsLoop, hx, andThen_assoc, andThen_ret, DPanic_andThen _ _ _ _ hdev,
      DPanic_written]
    simp [Run.ret, Run.andThen]
  · rw [handleFeilds_of_ne_nil l _ additional (by simp),
      handleFeildsLoop_append l (k :: v :: rest) wf [] hwf, leadingPairs_eq_scanFields]
    simp only [handleFeildsLoop, hk.1, hk.2, andThen_assoc, andThen_ret,
      DPanic_andThen _ _ _ _ hdev, DPanic_written]
    simp [Run.ret, Run.andThen]

/-- C2 (amended), at the two lists of the specification. -/
theorem handleFeilds_truncates_at_offending_witness :
    handleFeilds ⟨0, false, "", []⟩ ([.str "k1", .int 1] ++ [.str "k2"]) [] =
        ⟨if (zap.Logger.mk 0 false "" []).Enabled zap.DPanicLevel = true then
            [Entry.mk zap.DPanicLevel ""
              (.text "odd number of arguments passed as key-value pairs for logging")
              [] [zap.Any "ignored key" (.str "k2")]]
          else [],
          .returned (leadingPairs [.str "k1", .int 1] ++ [])⟩ ∧
      handleFeilds ⟨0, false, "", []⟩ ([.str "k1", .int 1] ++ .int 42 :: .str "v" :: []) [] =
        ⟨if (zap.Logger.mk 0 false "" []).Enabled zap.DPanicLevel = true then
            [Entry.mk zap.DPanicLevel ""
              (.text "non-string key argument passed to logging,, ignoring all later arguments")
              [] [zap.Any "invalid key" (.int 42)]]
          else [],
          .returned (leadingPairs [.str "k1", .int 1] ++ [])⟩ :=
  handleFeilds_truncates_at_offending ⟨0, false, "", []⟩ [.str "k1", .int 1] (.str "k2")
    (.int 42) (.str "v") [] [] rfl (by decide) rfl ⟨rfl, rfl⟩

theorem returns_of_outcome {α : Type} (r : Run α) (a : α) (h : r.outcome = .returned a) :
    r.returns = true := by
  simp [Run.returns, h]

theorem Named_development (l : zap.Logger) (s : String) :
    (l.Named s).development = l.development := by
  unfold zap.Logger.Named
  split
  · rfl
  · split <;> rfl

/-- An `infoLogger` outside development mode, at a level other than `Panic` and
`Fatal`, returns from `Infow` on all arguments. -/
theorem infoLogger_Infow_returns (il : infoLogger) (msg : String) (args : List Value)
    (hdev : il.log.development = false)
    (hlvl : il.level ≠ zap.PanicLevel ∧ il.level ≠ zap.FatalLevel) :
    (il.Infow msg args).returns = true := by
  unfold infoLogger.Infow
  cases hc : il.log.Check il.level (.text msg) with
  | none => simp [Run.ret, Run.returns]
  | some ce =>
    have hshould : ce.should = .WriteThenNoop := by
      unfold zap.Logger.Check at hc
      split at hc
      · cases hc
      · split at hc
        · cases hc
        · cases hc
          simp [zap.Logger.terminal, hlvl.1, hlvl.2, hdev]
    simp [Run.andThen, handleFeilds_outcome il.log args [] hdev, zap.CheckedEntry.Write,
      hshould, Run.returns]

/-- C3, as stated, fails: a logger built by `New` with `Development` set panics
in the diagnostic of a dangling key, so `handleFeilds`, `WithValues` and
`infoLogger.Infow` do not return. -/
theorem development_logger_panics_on_malformed :
    ∃ lg, New zap.stock (some { NewOptions with Development := true }) = Run.ret lg ∧
      (handleFeilds lg.zapLogger [.str "k1", .int 1, .str "k2"] []).returns = false ∧
      (lg.WithValues [.str "k1", .int 1, .str "k2"]).returns = false ∧
      (lg.infoLogger.Infow "msg" [.str "k1", .int 1, .str "k2"]).returns = false :=
  ⟨⟨⟨0, true, "", []⟩, ⟨0, ⟨0, true, "", []⟩⟩⟩, by decide, by decide, by decide, by decide⟩

/-- C3 (amended): for every logger that `New` builds from options with
`Development` false, and for every loose argument list, malformed or not,
`handleFeilds` returns normally, and therefore so do `zapLogger.WithValues` and
the `Infow` of the embedded `infoLogger`: outside development mode the
diagnostic self-log does not panic. -/
theorem malformed_arguments_return_outside_development (E : zap.Engine) (o : Options)
    (lg : zapLogger) (msg : String) (args : List Value) (additional : List Field)
    (hdev : o.Development = false) (hnew : (New E (some o)).outcome = .returned lg) :
    (handleFeilds lg.zapLogger args additional).returns = true ∧
      (lg.WithValues args).returns = true ∧
      (lg.infoLogger.Infow msg args).returns = true := by
  have hlg : lg.zapLogger.development = false ∧ lg.infoLogger.log.development = false ∧
      lg.infoLogger.level = zap.InfoLevel := by
    unfold New zap.Config.Build at hnew
    cases hb : E.buildError (loggerCofig E o) with
    | some err => simp [hb] at hnew
    | none =>
      simp [hb, Run.ret] at hnew
      subst hnew
      simp [Named_development, loggerCofig, hdev]
  refine ⟨returns_of_outcome _ _ (handleFeilds_outcome _ args additional hlg.1), ?_, ?_⟩
  · unfold zapLogger.WithValues
    simp [Run.andThen, handleFeilds_outcome _ args [] hlg.1, Run.ret, Run.returns]
  · apply infoLogger_Infow_returns _ _ _ hlg.2.1
    rw [hlg.2.2]
    decide

/-- C3 (amended), at the default options and a list with a dangling key. -/
theorem malformed_arguments_return_outside_development_witness :
    (handleFeilds (NewLogger ⟨0, false, "", []⟩).zapLogger [.str "k1", .int 1, .str "k2"]
        []).returns = true ∧
      ((NewLogger ⟨0, false, "", []⟩).WithValues [.str "k1", .int 1, .str "k2"]).returns = true ∧
      ((NewLogger ⟨0, false, "", []⟩).infoLogger.Infow "msg"
        [.str "k1", .int 1, .str "k2"]).returns = true :=
  malformed_arguments_return_outside_development zap.stock NewOptions
    (NewLogger ⟨0, false, "", []⟩) "msg" [.str "k1", .int 1, .str "k2"] [] rfl (by decide)

/-- C4, as stated, fails: for `("k", F)` with a typed field `F` in the value
position `handleFeilds` logs no diagnostic and produces the field `Any("k", F)`
for the pair. -/
theorem handleFeilds_accepts_field_in_value_position :
    handleFeilds ⟨0, false, "", []⟩ [.str "k", .zapField "f" (.int 1)] [] =
      ⟨[], .returned [zap.Any "k" (.zapField "f" (.int 1))]⟩ := by
  decide

/-- C4 (amended): when a typed field stands at a key position, after well-formed
pairs `wf`, `handleFeilds` signals the diagnostic for a strongly typed field,
with that field as its marker, and stops there: if the diagnostic returns, the
result is the fields of `wf` and the additional fields, with no field for that
position or for anything after it. -/
theorem handleFeilds_stops_at_typed_field (l : zap.Logger) (wf : List Value)
    (key : String) (val : Value) (rest : List Value) (additional : List Field)
    (hwf : wellFormed wf) :
    handleFeilds l (wf ++ .zapField key val :: rest) additional =
      (l.DPanic "strongly-typed zap filed passed to log"
        [zap.Any "zap field" (.zapField key val)]).andThen
        fun _ => Run.ret (leadingPairs wf ++ additional) := by
  rw [handleFeilds_of_ne_nil l _ additional (by simp),
    handleFeildsLoop_append l (.zapField key val :: rest) wf [] hwf, leadingPairs_eq_scanFields]
  simp [handleFeildsLoop, Value.asField, andThen_assoc, andThen_ret]

/-- C4 (amended), at the list `("a", 1, F, "b", 2)`. -/
theorem handleFeilds_stops_at_typed_field_witness :
    handleFeilds ⟨0, false, "", []⟩
        ([.str "a", .int 1] ++ .zapField "f" (.int 1) :: [.str "b", .int 2]) [] =
      ((zap.Logger.mk 0 false "" []).DPanic "strongly-typed zap filed passed to log"
        [zap.Any "zap field" (.zapField "f" (.int 1))]).andThen
        fun _ => Run.ret (leadingPairs [.str "a", .int 1] ++ []) :=
  handleFeilds_stops_at_typed_field ⟨0, false, "", []⟩ [.str "a", .int 1] "f" (.int 1)
    [.str "b", .int 2] [] (by decide)


/-! ## Claims on the logger methods -/

/-- C5: the method `zapLogger.Infow` formats instead of attaching fields.  On an
Info-enabled logger, `Infow("hello", "k", 1)` hands the engine an entry with no
fields, whose message is `Sprintf("hello", "k", 1)`, while the package function
`Infow` on the same logger hands it the message `hello` with the field `k: 1`. -/
theorem zapLogger_Infow_drops_fields :
    (NewLogger ⟨0, false, "", []⟩).Infow "hello" [.str "k", .int 1] =
        ⟨[Entry.mk 0 "" (.sprintf "hello" [.str "k", .int 1]) [] []], .returned ()⟩ ∧
      Infow (NewLogger ⟨0, false, "", []⟩) "hello" [.str "k", .int 1] =
        some ⟨[Entry.mk 0 "" (.text "hello") [] [Field.mk "k" (.int 1)]], .returned ()⟩ := by
  constructor <;> decide


/-- When the level is enabled `Check` yields an entry that will be written. -/
theorem Check_of_enabled (l : zap.Logger) (lvl : Int) (msg : Message)
    (h : l.Enabled lvl = true) :
    l.Check lvl msg = some ⟨lvl, l.name, msg, l.context, true, l.terminal lvl⟩ := by
  simp [zap.Logger.Check, h]

/-- An entry that will be written is written whatever its terminal action is. -/
theorem Write_written (ce : zap.CheckedEntry) (fields : List Field) (h : ce.willWrite = true) :
    (ce.Write fields).written =
      [Entry.mk ce.Level ce.LoggerName ce.Message ce.Context fields] := by
  unfold zap.CheckedEntry.Write
  cases ce.should <;> simp [h]

/-- C6: for every `zapLogger` and every integer `n`, with `lvl` the 8-bit level
that `-1 * n` converts to: when the engine does not enable `lvl`, `V(n)` is the
no-op logger, its `Enabled()` is false and its `Info`, `Infof` and `Infow` write
no entry for any arguments; otherwise `V(n)` reports `Enabled()` true, and its
`Info`, `Infof` and (on well-formed pairs) `Infow` write one entry, at `lvl`. -/
theorem V_disabled_or_leveled (l : zapLogger) (n : Int) :
    (l.zapLogger.Enabled (zap.toInt8 (zap.wrapInt64 (-1 * n))) = false →
      l.V n = .disabledInfoLogger ∧ (l.V n).Enabled = false ∧
        ∀ (msg format : String) (fields : List Field) (args kv : List Value),
          ((l.V n).Info msg fields).written = [] ∧
            ((l.V n).Infof format args).written = [] ∧
            ((l.V n).Infow msg kv).written = []) ∧
      (l.zapLogger.Enabled (zap.toInt8 (zap.wrapInt64 (-1 * n))) = true →
        (l.V n).Enabled = true ∧
          ∀ (msg format : String) (fields : List Field) (args kv : List Value),
            ((l.V n).Info msg fields).written =
                [Entry.mk (zap.toInt8 (zap.wrapInt64 (-1 * n))) l.zapLogger.name (.text msg)
                  l.zapLogger.context fields] ∧
              ((l.V n).Infof format args).written =
                [Entry.mk (zap.toInt8 (zap.wrapInt64 (-1 * n))) l.zapLogger.name
                  (.sprintf format args) l.zapLogger.context []] ∧
              (wellFormed kv →
                ((l.V n).Infow msg kv).written =
                  [Entry.mk (zap.toInt8 (zap.wrapInt64 (-1 * n))) l.zapLogger.name (.text msg)
                    l.zapLogger.context (leadingPairs kv)])) := by
  constructor
  · intro h
    have hV : l.V n = .disabledInfoLogger := by
      unfold zapLogger.V
      simp only [h]
      rfl
    rw [hV]
    refine ⟨rfl, rfl, ?_⟩
    intro msg format fields args kv
    exact ⟨rfl, rfl, rfl⟩
  · intro h
    have hV : l.V n =
        .leveled ⟨zap.toInt8 (zap.wrapInt64 (-1 * n)), l.zapLogger⟩ := by
      unfold zapLogger.V
      simp only [h]
      rfl
    rw [hV]
    refine ⟨rfl, ?_⟩
    intro msg format fields args kv
    refine ⟨?_, ?_, ?_⟩
    · simp only [InfoLogger.Info, infoLogger.Info, Check_of_enabled _ _ _ h]
      exact Write_written _ _ rfl
    · simp only [InfoLogger.Infof, infoLogger.Infof, Check_of_enabled _ _ _ h]
      exact Write_written _ _ rfl
    · intro hwf
      simp only [InfoLogger.Infow, infoLogger.Infow, Check_of_enabled _ _ _ h,
        handleFeilds_of_wellFormed _ kv [] hwf, andThen_ret, List.append_nil]
      exact Write_written _ _ rfl

/-- C6, at a logger with minimum level `Info`: `V(1)` is disabled and `V(0)` is
enabled. -/
theorem V_disabled_or_leveled_witness :
    ((NewLogger ⟨0, false, "", []⟩).V 1 = .disabledInfoLogger ∧
      ((NewLogger ⟨0, false, "", []⟩).V 1).Enabled = false ∧
      ∀ (msg format : String) (fields : List Field) (args kv : List Value),
        (((NewLogger ⟨0, false, "", []⟩).V 1).Info msg fields).written = [] ∧
          (((NewLogger ⟨0, false, "", []⟩).V 1).Infof format args).written = [] ∧
          (((NewLogger ⟨0, false, "", []⟩).V 1).Infow msg kv).written = []) ∧
      ((NewLogger ⟨0, false, "", []⟩).V 0).Enabled = true :=
  ⟨(V_disabled_or_leveled (NewLogger ⟨0, false, "", []⟩) 1).1 (by decide),
    ((V_disabled_or_leveled (NewLogger ⟨0, false, "", []⟩) 0).2 (by decide)).1⟩

/-- C7: the larger verbosity is enabled while the smaller is not.  On a logger
with minimum level `Info`, `V(200)` is enabled, at level `56`, because `-200`
does not fit the 8-bit level, while `V(100)` is disabled. -/
theorem V_not_monotone_beyond_int8 :
    (100 : Int) ≤ 200 ∧
      ((NewLogger ⟨zap.InfoLevel, false, "", []⟩).V 200).Enabled = true ∧
      ((NewLogger ⟨zap.InfoLevel, false, "", []⟩).V 100).Enabled = false ∧
      (NewLogger ⟨zap.InfoLevel, false, "", []⟩).V 200 =
        .leveled ⟨56, ⟨zap.InfoLevel, false, "", []⟩⟩ := by
  decide

/-- Within the range of the 8-bit level verbosity is monotone: for
`-127 ≤ m ≤ n ≤ 128`, if `V(n)` is enabled then so is `V(m)`. -/
theorem V_monotone_within_int8 (l : zapLogger) (m n : Int) (hm : -127 ≤ m) (hmn : m ≤ n)
    (hn : n ≤ 128) (h : (l.V n).Enabled = true) : (l.V m).Enabled = true := by
  have key : ∀ k : Int, -127 ≤ k → k ≤ 128 → zap.toInt8 (zap.wrapInt64 (-1 * k)) = -k := by
    intro k h1 h2
    unfold zap.toInt8 zap.wrapInt64
    omega
  unfold zapLogger.V at h ⊢
  rw [key n (by omega) hn] at h
  rw [key m hm (by omega)]
  simp only [zap.Logger.Enabled] at h ⊢
  by_cases hen : l.zapLogger.level ≤ -n
  · have : l.zapLogger.level ≤ -m := by omega
    simp [this, InfoLogger.Enabled, infoLogger.Enabled]
  · simp [hen, InfoLogger.Enabled] at h

theorem With_context (l : zap.Logger) (fields : List Field) :
    (l.With fields).context = l.context ++ fields := by
  unfold zap.Logger.With
  split
  · next h => simp [h]
  · rfl

/-- The effect of `WithValues` on well-formed pairs. -/
theorem WithValues_of_wellFormed (l : zapLogger) (kv : List Value) (h : wellFormed kv) :
    l.WithValues kv = Run.ret (NewLogger (l.zapLogger.With (leadingPairs kv))) := by
  unfold zapLogger.WithValues
  rw [handleFeilds_of_wellFormed _ kv [] h, andThen_ret]
  simp

/-- C8: for every `zapLogger` and well-formed lists `kv1`, `kv2`, the two calls of
`WithValues` return loggers `l1` and `l2`; the accumulated fields of `l1` are
those of `l` followed by the pairs of `kv1`, and those of `l2` are those of `l`,
then the pairs of `kv1`, then the pairs of `kv2`, in order.  The calls yield new
logger values: `l` and `l1` are what they were. -/
theorem WithValues_accumulates (l : zapLogger) (kv1 kv2 : List Value)
    (h1 : wellFormed kv1) (h2 : wellFormed kv2) :
    ∃ l1 l2, l.WithValues kv1 = Run.ret l1 ∧ l1.WithValues kv2 = Run.ret l2 ∧
      l1.zapLogger.context = l.zapLogger.context ++ leadingPairs kv1 ∧
      l2.zapLogger.context = l.zapLogger.context ++ leadingPairs kv1 ++ leadingPairs kv2 ∧
      l2.infoLogger.log = l2.zapLogger := by
  refine ⟨_, _, WithValues_of_wellFormed l kv1 h1, WithValues_of_wellFormed _ kv2 h2, ?_, ?_, ?_⟩
  · simp [NewLogger, With_context]
  · simp [NewLogger, With_context]
  · rfl

/-- C8, at `WithValues("a", 1).WithValues("b", 2)` on a logger without fields. -/
theorem WithValues_accumulates_witness :
    ∃ l1 l2, (NewLogger ⟨0, false, "", []⟩).WithValues [.str "a", .int 1] = Run.ret l1 ∧
      l1.WithValues [.str "b", .int 2] = Run.ret l2 ∧
      l1.zapLogger.context =
        (NewLogger ⟨0, false, "", []⟩).zapLogger.context ++ leadingPairs [.str "a", .int 1] ∧
      l2.zapLogger.context =
        (NewLogger ⟨0, false, "", []⟩).zapLogger.context ++ leadingPairs [.str "a", .int 1] ++
          leadingPairs [.str "b", .int 2] ∧
      l2.infoLogger.log = l2.zapLogger :=
  WithValues_accumulates (NewLogger ⟨0, false, "", []⟩) [.str "a", .int 1] [.str "b", .int 2]
    (by decide) (by decide)

/-! ## Claims on the options -/

/-- The list `Validate()` returns: the level error, if the level text does not
parse, then the format error, if the lowered format is neither of the two. -/
theorem Validate_eq (E : zap.Engine) (o : Options) :
    o.Validate E =
      (if E.UnmarshalText o.Level = none then [ValidateError.unrecognizedLevel o.Level]
        else []) ++
      (if strings.ToLower o.Format ≠ consoleFormat ∧ strings.ToLower o.Format ≠ jsonFormat
        then [ValidateError.notValidFormat o.Format] else []) := by
  unfold Options.Validate
  cases hl : E.UnmarshalText o.Level <;>
    by_cases hf : strings.ToLower o.Format ≠ consoleFormat ∧
      strings.ToLower o.Format ≠ jsonFormat <;> simp [hf]

/-- C9: for every `Options`, `Validate()` returns one error for each violated
constraint and nothing else: the level error first, exactly when the level text
does not parse, then the format error, exactly when the lowered format is
neither `console` nor `json`.  Both are returned when both constraints are
violated, and the result is empty exactly when neither is. -/
theorem Validate_collects (E : zap.Engine) (o : Options) :
    o.Validate E =
        (if E.UnmarshalText o.Level = none then [ValidateError.unrecognizedLevel o.Level]
          else []) ++
        (if strings.ToLower o.Format ≠ consoleFormat ∧ strings.ToLower o.Format ≠ jsonFormat
          then [ValidateError.notValidFormat o.Format] else []) ∧
      ((∃ text, ValidateError.unrecognizedLevel text ∈ o.Validate E) ↔
        E.UnmarshalText o.Level = none) ∧
      ((∃ format, ValidateError.notValidFormat format ∈ o.Validate E) ↔
        ¬ (strings.ToLower o.Format = consoleFormat ∨ strings.ToLower o.Format = jsonFormat)) ∧
      (E.UnmarshalText o.Level = none ∧
          ¬ (strings.ToLower o.Format = consoleFormat ∨ strings.ToLower o.Format = jsonFormat) →
        o.Validate E =
          [ValidateError.unrecognizedLevel o.Level, ValidateError.notValidFormat o.Format]) ∧
      (o.Validate E = [] ↔
        E.UnmarshalText o.Level ≠ none ∧
          (strings.ToLower o.Format = consoleFormat ∨ strings.ToLower o.Format = jsonFormat)) := by
  have hlist := Validate_eq E o
  refine ⟨hlist, ?_, ?_, ?_, ?_⟩
  all_goals
    rw [hlist]
    cases hl : E.UnmarshalText o.Level <;>
      by_cases hf1 : strings.ToLower o.Format = consoleFormat <;>
      by_cases hf2 : strings.ToLower o.Format = jsonFormat <;> simp [hf1, hf2]

/-- C9, at options whose level and format are both invalid. -/
theorem Validate_collects_witness :
    Options.Validate zap.stock { NewOptions with Level := "bogus", Format := "xml" } =
      [ValidateError.unrecognizedLevel "bogus", ValidateError.notValidFormat "xml"] :=
  (Validate_collects zap.stock { NewOptions with Level := "bogus", Format := "xml" }).2.2.2.1
    ⟨by decide, by decide⟩

theorem Named_level (l : zap.Logger) (s : String) : (l.Named s).level = l.level := by
  unfold zap.Logger.Named
  split
  · rfl
  · split <;> rfl

/-- The configuration does not depend on a level text beyond the level it
parses to. -/
theorem loggerCofig_of_unparseable (E : zap.Engine) (o : Options) (text : String)
    (h : E.UnmarshalText o.Level = none) (ht : E.UnmarshalText text = some zap.InfoLevel) :
    loggerCofig E { o with Level := text } = loggerCofig E o := by
  simp [loggerCofig, Options.zapLevel, Options.encodeLevel, h, ht]

/-- C10: for every `Options`, the minimum level that `New` and `Build` configure
in the engine is the parsed value of `Level` when it parses and `Info` when it
does not; whenever the engine builds the configuration both succeed and the
logger they build has that level.  When `Level` does not parse, `Validate()` is
not empty, and `New` and `Build` do exactly what they do for the same options
with a level text that parses to `Info`: the parse failure makes neither fail. -/
theorem level_configured (E : zap.Engine) (o : Options) :
    (∀ lvl, E.UnmarshalText o.Level = some lvl → (loggerCofig E o).Level = lvl) ∧
      (E.buildError (loggerCofig E o) = none →
        ∃ lg z, New E (some o) = Run.ret lg ∧ o.Build E = .ok z ∧
          lg.zapLogger.level = (loggerCofig E o).Level ∧
          lg.infoLogger.log.level = (loggerCofig E o).Level ∧
          z.level = (loggerCofig E o).Level) ∧
      (E.UnmarshalText o.Level = none →
        (loggerCofig E o).Level = zap.InfoLevel ∧ o.Validate E ≠ [] ∧
          ∀ text, E.UnmarshalText text = some zap.InfoLevel →
            New E (some { o with Level := text }) = New E (some o) ∧
              Options.Build E { o with Level := text } = o.Build E) := by
  refine ⟨?_, ?_, ?_⟩
  · intro lvl h
    simp [loggerCofig, Options.zapLevel, h]
  · intro h
    let z : zap.Logger := ⟨(loggerCofig E o).Level, (loggerCofig E o).Development, "", []⟩
    refine ⟨⟨z.Named o.Name, ⟨zap.InfoLevel, z⟩⟩, z, ?_, ?_, ?_, ?_, ?_⟩
    · simp only [New, zap.Config.Build, h, z]
    · simp only [Options.Build, zap.Config.Build, h, z]
    · simp [Named_level, z]
    · rfl
    · rfl
  · intro h
    refine ⟨by simp [loggerCofig, Options.zapLevel, h], ?_, ?_⟩
    · rw [Validate_eq E o]
      simp [h]
    · intro text ht
      have hc := loggerCofig_of_unparseable E o text h ht
      constructor
      · simp only [New, hc]
      · simp only [Options.Build, hc]

/-- C10, at options whose level text does not parse. -/
theorem level_configured_witness :
    (∃ lg z, New zap.stock (some { NewOptions with Level := "bogus" }) = Run.ret lg ∧
        Options.Build zap.stock { NewOptions with Level := "bogus" } = .ok z ∧
        lg.zapLogger.level = (loggerCofig zap.stock { NewOptions with Level := "bogus" }).Level ∧
        lg.infoLogger.log.level =
          (loggerCofig zap.stock { NewOptions with Level := "bogus" }).Level ∧
        z.level = (loggerCofig zap.stock { NewOptions with Level := "bogus" }).Level) ∧
      ((loggerCofig zap.stock { NewOptions with Level := "bogus" }).Level = zap.InfoLevel ∧
        Options.Validate zap.stock { NewOptions with Level := "bogus" } ≠ [] ∧
        ∀ text, zap.stock.UnmarshalText text = some zap.InfoLevel →
          New zap.stock (some { { NewOptions with Level := "bogus" } with Level := text }) =
              New zap.stock (some { NewOptions with Level := "bogus" }) ∧
            Options.Build zap.stock { { NewOptions with Level := "bogus" } with Level := text } =
              Options.Build zap.stock { NewOptions with Level := "bogus" }) :=
  ⟨(level_configured zap.stock { NewOptions with Level := "bogus" }).2.1 (by decide),
    (level_configured zap.stock { NewOptions with Level := "bogus" }).2.2 (by decide)⟩

/-! ## Claims on the standard library loggers and on the format -/

/-- C11: `StdErrLogger` and `StdInfoLogger` return nil although the default logger
is set and the construction succeeds.  For every default logger `std`,
`NewStdLogAt` yields a standard library logger at the error level, and at the
info level, with a nil error, and both functions return nil: they return the
logger only when the error is not nil. -/
theorem StdErrLogger_nil_on_success (std : zapLogger) :
    zap.NewStdLogAt std.zapLogger zap.ErrorLevel =
        (some ⟨std.zapLogger, zap.ErrorLevel⟩, none) ∧
      StdErrLogger (some std) = none ∧
      zap.NewStdLogAt std.zapLogger zap.InfoLevel =
        (some ⟨std.zapLogger, zap.InfoLevel⟩, none) ∧
      StdInfoLogger (some std) = none := by
  refine ⟨rfl, ?_, rfl, ?_⟩
  · simp [StdErrLogger, zap.NewStdLogAt, zap.DebugLevel, zap.ErrorLevel, zap.FatalLevel]
  · simp [StdInfoLogger, zap.NewStdLogAt, zap.DebugLevel, zap.InfoLevel, zap.FatalLevel]

/-- C13: validation and construction disagree on the format.  The options with
format `JSON` pass `Validate()` without an error, yet `New` and `Build` hand the
engine the encoding name `JSON`, which is neither `console` nor `json`: with the
encoders zap registers, `New` panics and `Build` returns the error.  The format
`Console` with `EnableColor` set passes `Validate()` as well, and the level
encoder chosen is the one without colour. -/
theorem validated_format_not_normalised :
    Options.Validate zap.stock { NewOptions with Format := "JSON" } = [] ∧
      (loggerCofig zap.stock { NewOptions with Format := "JSON" }).Encoding = "JSON" ∧
      (New zap.stock (some { NewOptions with Format := "JSON" })).outcome =
        .panicked (.text "no encoder registered") ∧
      Options.Build zap.stock { NewOptions with Format := "JSON" } =
        .error "no encoder registered" ∧
      Options.Validate zap.stock { NewOptions with Format := "Console", EnableColor := true } =
        [] ∧
      (loggerCofig zap.stock
          { NewOptions with Format := "Console", EnableColor := true }).EncodeLevel =
        .CapitalLevelEncoder := by
  refine ⟨by decide, by decide, by decide, ?_, by decide, by decide⟩
  rfl

end Cuszap

namespace cuslog

open Cuszap

/-! ## The text formatter: the cut at the last separator -/

theorem take_one_drop_eq (s : List Char) (c : Char) (i : Nat) :
    (s.drop i).take 1 = [c] ↔ s[i]? = some c := by
  rw [← List.head?_drop]
  cases s.drop i with
  | nil => simp
  | cons a as => simp

/-- The search below `n`, for the one-character separator `c`: either nothing is
found and no position below `n` holds `c`, or the result is the highest
position below `n` that holds `c`. -/
theorem lastIndexBelow_char (s : List Char) (c : Char) (n : Nat) :
    (lastIndexBelow s [c] n = -1 ∧ ∀ i, i < n → s[i]? ≠ some c) ∨
      ∃ k : Nat, lastIndexBelow s [c] n = (k : Int) ∧ k < n ∧ s[k]? = some c ∧
        ∀ i, k < i → i < n → s[i]? ≠ some c := by
  induction n with
  | zero => left; simp [lastIndexBelow]
  | succ m ih =>
    by_cases hm : s[m]? = some c
    · right
      refine ⟨m, ?_, by omega, hm, ?_⟩
      · have : (s.drop m).take 1 = [c] := (take_one_drop_eq s c m).2 hm
        simp [lastIndexBelow, this]
      · intro i h1 h2; omega
    · have hne : ¬ (s.drop m).take 1 = [c] := fun h => hm ((take_one_drop_eq s c m).1 h)
      have hstep : lastIndexBelow s [c] (m + 1) = lastIndexBelow s [c] m := by
        simp [lastIndexBelow, hne]
      rcases ih with ⟨h1, h2⟩ | ⟨k, h1, h2, h3, h4⟩
      · left
        refine ⟨by rw [hstep, h1], ?_⟩
        intro i hi
        by_cases him : i = m
        · subst him; exact hm
        · exact h2 i (by omega)
      · right
        refine ⟨k, by rw [hstep, h1], by omega, h3, ?_⟩
        intro i hk hi
        by_cases him : i = m
        · subst him; exact hm
        · exact h4 i hk (by omega)

/-- The slice after the last separator of a string that is not empty: it is in
range, holds no separator, and is the whole string when that holds none, or
else what follows a separator. -/
theorem sliceFrom_LastIndex (s : String) (h : s ≠ "") :
    ∃ short, sliceFrom s (LastIndex s "/" + 1) = some short ∧ '/' ∉ short.data ∧
      ((short = s ∧ '/' ∉ s.data) ∨ ∃ pre, s.data = pre ++ '/' :: short.data) := by
  have hlen : 1 ≤ s.data.length := by
    cases s with
    | mk d =>
      cases d with
      | nil => exact absurd rfl h
      | cons a as => simp
  have hL : LastIndex s "/" = lastIndexBelow s.data ['/'] s.data.length := by
    have h1 : ("/" : String).length = 1 := rfl
    have h2 : ("/" : String).data = ['/'] := rfl
    have h3 : s.length = s.data.length := rfl
    unfold LastIndex
    rw [h1, h2, h3, if_pos hlen]
    congr 1
    omega
  rcases lastIndexBelow_char s.data '/' s.data.length with ⟨h1, h2⟩ | ⟨k, h1, h2, h3, h4⟩
  · have hnot : '/' ∉ s.data := by
      intro hmem
      obtain ⟨i, hi, hget⟩ := List.mem_iff_getElem.mp hmem
      exact h2 i hi (by rw [List.getElem?_eq_getElem hi, hget])
    refine ⟨s, ?_, hnot, Or.inl ⟨rfl, hnot⟩⟩
    rw [hL, h1]
    simp [sliceFrom]
  · have hdrop : s.data.drop k = '/' :: s.data.drop (k + 1) := by
      have hget : s.data[k] = '/' := by
        have := h3
        rw [List.getElem?_eq_getElem h2] at this
        exact Option.some.inj this
      rw [List.drop_eq_getElem_cons h2, hget]
    refine ⟨String.mk (s.data.drop (k + 1)), ?_, ?_, Or.inr ⟨s.data.take k, ?_⟩⟩
    · rw [hL, h1]
      have hs : s.length = s.data.length := rfl
      have hk : ((k : Int) + 1).toNat = k + 1 := by omega
      simp only [sliceFrom, hs, hk]
      rw [if_pos]
      constructor <;> omega
    · intro hmem
      obtain ⟨i, hi, hget⟩ := List.mem_iff_getElem.mp hmem
      have hi1 : i < (s.data.drop (k + 1)).length := hi
      have hi2 : k + 1 + i < s.data.length := by
        rw [List.length_drop] at hi1; omega
      apply h4 (k + 1 + i) (by omega) hi2
      rw [← List.getElem?_drop s.data (k + 1) i, List.getElem?_eq_getElem hi1]
      exact congrArg some hget
    · show s.data = s.data.take k ++ '/' :: s.data.drop (k + 1)
      rw [← hdrop, List.take_append_drop]

/-! ## Claim on the text formatter -/

/-- C12: for every formatter and entry, `Format` does not panic (the slice is in
range) and returns nil.  With `IgnoreBasicFields` false and a `File` that is not
empty it writes, after the header, the location made of `short` and the line of
the entry, where `short` holds no `/` and is the whole of `File` when `File`
holds no `/`, and otherwise what follows a `/` of `File`: its suffix after the
last `/`.  When `File` is empty no location is written. -/
theorem Format_writes_short_location (t : TextFormatter) (e : Entry) :
    (∃ r, t.Format e = some r ∧ r.err = none) ∧
      (t.IgnoreBasicFields = false → e.File ≠ "" →
        ∃ short,
          t.Format e =
              some ⟨e.Buffer ++ [Piece.header e.Time (LevelNameMapping e.Level),
                Piece.location short e.Line, Piece.text " ", TextFormatter.message e,
                Piece.text "\n"], none⟩ ∧
            '/' ∉ short.data ∧
            ((short = e.File ∧ '/' ∉ e.File.data) ∨
              ∃ pre, e.File.data = pre ++ '/' :: short.data)) ∧
      (t.IgnoreBasicFields = false → e.File = "" →
        t.Format e =
          some ⟨e.Buffer ++ [Piece.header e.Time (LevelNameMapping e.Level), Piece.text " ",
            TextFormatter.message e, Piece.text "\n"], none⟩) := by
  have hloc : e.File ≠ "" →
      ∃ short,
        TextFormatter.basicFields e =
            some [Piece.header e.Time (LevelNameMapping e.Level),
              Piece.location short e.Line, Piece.text " "] ∧
          '/' ∉ short.data ∧
          ((short = e.File ∧ '/' ∉ e.File.data) ∨
            ∃ pre, e.File.data = pre ++ '/' :: short.data) := by
    intro hf
    obtain ⟨short, h1, h2, h3⟩ := sliceFrom_LastIndex e.File hf
    exact ⟨short, by simp [TextFormatter.basicFields, hf, h1], h2, h3⟩
  have hempty : e.File = "" →
      TextFormatter.basicFields e =
        some [Piece.header e.Time (LevelNameMapping e.Level), Piece.text " "] := by
    intro hf
    simp [TextFormatter.basicFields, hf]
  refine ⟨?_, ?_, ?_⟩
  · cases hi : t.IgnoreBasicFields with
    | true =>
      have h : t.Format e =
          some ⟨e.Buffer ++ [] ++ [TextFormatter.message e] ++ [Piece.text "\n"], none⟩ := by
        simp [TextFormatter.Format, hi]
      exact ⟨_, h, rfl⟩
    | false =>
      by_cases hf : e.File = ""
      · have h : t.Format e =
            some ⟨e.Buffer ++ [Piece.header e.Time (LevelNameMapping e.Level), Piece.text " "] ++
              [TextFormatter.message e] ++ [Piece.text "\n"], none⟩ := by
          simp [TextFormatter.Format, hi, hempty hf]
        exact ⟨_, h, rfl⟩
      · obtain ⟨short, h1, _, _⟩ := hloc hf
        have h : t.Format e =
            some ⟨e.Buffer ++ [Piece.header e.Time (LevelNameMapping e.Level),
              Piece.location short e.Line, Piece.text " "] ++
              [TextFormatter.message e] ++ [Piece.text "\n"], none⟩ := by
          simp [TextFormatter.Format, hi, h1]
        exact ⟨_, h, rfl⟩
  · intro hi hf
    obtain ⟨short, h1, h2, h3⟩ := hloc hf
    exact ⟨short, by simp [TextFormatter.Format, hi, h1], h2, h3⟩
  · intro hi hf
    simp [TextFormatter.Format, hi, hempty hf]

/-- C12, at an entry whose file is `pkg/sub/main.go`. -/
theorem Format_writes_short_location_witness :
    ∃ short,
      TextFormatter.Format ⟨false⟩ ⟨[], 0, 1, "pkg/sub/main.go", 42, "", []⟩ =
          some ⟨(Entry.mk [] 0 1 "pkg/sub/main.go" 42 "" []).Buffer ++
            [Piece.header (Entry.mk [] 0 1 "pkg/sub/main.go" 42 "" []).Time
              (LevelNameMapping (Entry.mk [] 0 1 "pkg/sub/main.go" 42 "" []).Level),
            Piece.location short (Entry.mk [] 0 1 "pkg/sub/main.go" 42 "" []).Line,
            Piece.text " ",
            TextFormatter.message (Entry.mk [] 0 1 "pkg/sub/main.go" 42 "" []),
            Piece.text "\n"], none⟩ ∧
        '/' ∉ short.data ∧
        ((short = (Entry.mk [] 0 1 "pkg/sub/main.go" 42 "" []).File ∧
            '/' ∉ (Entry.mk [] 0 1 "pkg/sub/main.go" 42 "" []).File.data) ∨
          ∃ pre, (Entry.mk [] 0 1 "pkg/sub/main.go" 42 "" []).File.data =
            pre ++ '/' :: short.data) :=
  (Format_writes_short_location ⟨false⟩ ⟨[], 0, 1, "pkg/sub/main.go", 42, "", []⟩).2.1 rfl
    (by decide)

end cuslog
